import Mathlib

/-!
Verification of the `poise` trade/activity aggregation engine
(`src/poise/engine/pnl.py` and `src/poise/services/account.py`).

Shallow embedding conventions:
* Python `Decimal` values are modelled as `ℚ` (the source performs exact
  decimal arithmetic on monetary quantities; `ℚ` division additionally uses
  the convention `x / 0 = 0`, which coincides with the guarded divisions of
  the source).
* Timestamps (`match_time`, `timestamp`, `last_match_time`, `last_buy_time`)
  are integer-valued strings in the source, always compared through `int(...)`;
  they are modelled directly as `Int`.
* Grouping via Python's insertion-ordered `defaultdict` is modelled by
  association lists that append new keys at the end (`addToBuckets`).
* Python's stable `sorted(..., reverse=True)` is modelled by a stable
  descending insertion sort (`sortDesc`).
-/

namespace Poise

/-- Canonical fill record (`poise/models/trade.py`). -/
structure Trade where
  id : String
  market : String
  asset_id : String
  side : String
  size : ℚ
  price : ℚ
  fee_rate_bps : ℚ
  status : String
  match_time : Int
  outcome : String
  transaction_hash : String
  trader_side : String
  market_title : String := ""
  category : String := ""
deriving DecidableEq, Repr

/-- Aggregate of all trades sharing (market, outcome) (`poise/models/trade_group.py`). -/
structure TradeGroup where
  market : String
  market_title : String
  category : String
  outcome : String
  last_match_time : Int
  avg_buy_price : ℚ
  total_bought : ℚ
  pnl : ℚ
deriving DecidableEq, Repr

/-- Currently open holding (`poise/models/position.py`). -/
structure Position where
  market : String
  market_title : String
  category : String
  outcome : String
  avg_buy_price : ℚ
  current_price : ℚ
  net_shares : ℚ
  total_bought : ℚ
  last_buy_time : Int
deriving DecidableEq, Repr

/-- A validated Data-API activity record (the dict shape consumed by
`AccountService.get_trade_groups` / `get_open_positions` after the numeric
fields have been converted). -/
structure Activity where
  type : String
  conditionId : String
  asset : String
  side : String
  size : ℚ
  price : ℚ
  usdcSize : ℚ
  timestamp : Int
  outcome : String
  title : String
  slug : String
  transactionHash : String
deriving DecidableEq, Repr

/-- A Gamma market-info record used for price lookup.  `outcomes` and
`outcomePrices` arrive as JSON-encoded strings (or lists); `none` models a
value whose JSON decoding raises inside `_current_price_for_outcome`'s
`try` block, `some` the successfully decoded list. -/
structure MarketInfo where
  conditionId : String
  outcomes : Option (List String)
  outcomePrices : Option (List ℚ)
deriving DecidableEq, Repr

/-- The intermediate `open_raw` dict of `AccountService.get_open_positions`. -/
structure RawPos where
  conditionId : String
  outcome : String
  avg_buy_price : ℚ
  net_shares : ℚ
  total_bought : ℚ
  last_buy_time : Int
  title : String
  slug : String
deriving DecidableEq, Repr

/-- Structured conversion error raised while normalizing a raw record
(Python's `KeyError` on a missing field or `decimal.InvalidOperation` on a
non-numeric one, both of which abort the whole normalization call). -/
inductive NormError where
  | missingOrNonNumeric (field : String)
deriving DecidableEq, Repr

/-- A raw CLOB fill record as consumed by `AccountService.get_trades`.
A required numeric field is `none` when it is absent or not decimal-parseable
(in the source both raise out of the conversion). -/
structure RawFill where
  id : String
  market : String
  asset_id : String
  side : String
  size : Option ℚ
  price : Option ℚ
  fee_rate_bps : Option ℚ
  status : String
  match_time : Int
  outcome : String
  transaction_hash : String
  trader_side : String
deriving DecidableEq, Repr

/-- A raw Data-API activity record before numeric validation, as consumed by
the trade-building loop of `AccountService.get_trade_groups`.  `none` on a
numeric field models absence or a non-numeric value. -/
structure RawActivity where
  type : String
  conditionId : String
  asset : String
  side : String
  size : Option ℚ
  price : Option ℚ
  usdcSize : Option ℚ
  timestamp : Option Int
  outcome : String
  title : String
  slug : String
  transactionHash : String
deriving DecidableEq, Repr

section SortDescDefs

variable {α : Type} {β : Type} [LinearOrder β] (key : α → β)

/-- Insert `x` after every element whose key is at least `key x`
(the stable-descending insertion step). -/
def insertDesc (x : α) : List α → List α
  | [] => [x]
  | y :: ys => if key x ≤ key y then y :: insertDesc x ys else x :: y :: ys

/-- Stable descending sort by `key`: the model of Python's
`sorted(..., key=..., reverse=True)`. -/
def sortDesc (l : List α) : List α :=
  l.foldl (fun acc x => insertDesc key x acc) []

end SortDescDefs

section BucketsDefs

variable {κ τ : Type} [DecidableEq κ] (key : τ → κ)

/-- One step of the insertion-ordered grouping dict
(`defaultdict(list)`; `buckets[key(t)].append(t)`): append `t` to the
bucket holding its key, or open a new bucket at the end. -/
def addToBuckets : List (κ × List τ) → τ → List (κ × List τ)
  | [], t => [(key t, [t])]
  | (k, ts) :: bs, t =>
    if key t = k then (k, ts ++ [t]) :: bs else (k, ts) :: addToBuckets bs t

/-- Group a list by `key`, preserving first-occurrence key order and
in-bucket input order, exactly as a Python insertion-ordered dict of lists. -/
def bucketsFor (l : List τ) : List (κ × List τ) :=
  l.foldl (addToBuckets key) []

end BucketsDefs

/-! ## `poise/engine/pnl.py` -/

/-- Source `_BPS = Decimal("10000")`. -/
def BPS : ℚ := 10000

/-- Source `trade_pnl`: net signed cash flow of a single fill.
SELL gets `gross - fee`, anything else is the BUY branch `-(gross + fee)`,
with `fee = gross * fee_rate_bps / 10000`. -/
def trade_pnl (t : Trade) : ℚ :=
  let gross := t.price * t.size
  let fee := gross * t.fee_rate_bps / BPS
  if t.side = "SELL" then gross - fee else -(gross + fee)

/-- Source `buckets[day] += delta` on the insertion-ordered `defaultdict(Decimal)`
of `daily_pnl`: add `v` into the bucket for `d`, opening a new bucket at the
end when `d` is new. -/
def addPnl (d : String) (v : ℚ) : List (String × ℚ) → List (String × ℚ)
  | [] => [(d, v)]
  | (d0, x) :: bs => if d = d0 then (d0, x + v) :: bs else (d0, x) :: addPnl d v bs

/-- The body of `daily_pnl`'s loop: credit `gross - fee` for a SELL and
debit `gross + fee` otherwise, into the bucket of the fill's calendar day. -/
def dailyStep (dayOf : Int → String) (acc : List (String × ℚ)) (t : Trade) :
    List (String × ℚ) :=
  let gross := t.price * t.size
  let fee := gross * t.fee_rate_bps / BPS
  if t.side = "SELL" then addPnl (dayOf t.match_time) (gross - fee) acc
  else addPnl (dayOf t.match_time) (-(gross + fee)) acc

/-- Source `daily_pnl`.  The source derives the bucket key with
`datetime.fromtimestamp(int(match_time)).strftime("%Y-%m-%d")`; that
timestamp-to-calendar-day map depends on the host time zone, so it is kept
as an explicit parameter `dayOf` and every theorem quantifies over it.
The final `sorted(buckets.items(), reverse=True)` orders the distinct day
keys descending. -/
def daily_pnl (dayOf : Int → String) (trades : List Trade) : List (String × ℚ) :=
  sortDesc Prod.fst (trades.foldl (dailyStep dayOf) [])

/-- Source `total_pnl`: `sum((pnl for _, pnl in daily), Decimal("0"))`. -/
def total_pnl (daily : List (String × ℚ)) : ℚ :=
  (daily.map Prod.snd).sum

/-- Source `max(fills, key=lambda t: int(t.match_time))` starting from `f`:
Python's `max` keeps the first element among maximal keys. -/
def maxByTime (f : Trade) (fs : List Trade) : Trade :=
  fs.foldl (fun best t => if best.match_time < t.match_time then t else best) f

/-- Source `[t for t in fills if t.side == "BUY"]`. -/
def buyFills (l : List Trade) : List Trade :=
  l.filter fun t => t.side == "BUY"

/-- Source `sum(t.size for t in buy_fills)`. -/
def buySize (l : List Trade) : ℚ :=
  ((buyFills l).map Trade.size).sum

/-- Source `sum(t.price * t.size for t in buy_fills)`. -/
def buyValue (l : List Trade) : ℚ :=
  ((buyFills l).map fun t => t.price * t.size).sum

/-- Source `sum((trade_pnl(t) for t in fills), Decimal("0"))`. -/
def sumPnl (l : List Trade) : ℚ :=
  (l.map trade_pnl).sum

/-- The body of `group_trades`' aggregation loop for one bucket
`((market, outcome), fills)`.  The source never sees an empty bucket; the
`[]` case returns `none` (and is proved unreachable). -/
def mkGroup : (String × String) × List Trade → Option TradeGroup
  | (_, []) => none
  | ((market, outcome), f :: fs) =>
    let fills := f :: fs
    some {
      market := market
      market_title := f.market_title
      category := f.category
      outcome := outcome
      last_match_time := (maxByTime f fs).match_time
      avg_buy_price :=
        if buyFills fills = [] then 0
        else if buySize fills = 0 then 0 else buyValue fills / buySize fills
      total_bought := if buyFills fills = [] then 0 else buyValue fills
      pnl := sumPnl fills }

/-- The grouping key `(t.market, t.outcome)`. -/
def tradeKey (t : Trade) : String × String := (t.market, t.outcome)

/-- Source `group_trades`: bucket fills by `(market, outcome)`, aggregate each
bucket, and sort the groups descending by `int(last_match_time)`. -/
def group_trades (trades : List Trade) : List TradeGroup :=
  sortDesc TradeGroup.last_match_time ((bucketsFor tradeKey trades).filterMap mkGroup)

/-! ## `poise/services/account.py` -/

/-- Source `_category_from_slug`: the token before the first `-`, empty for an
empty slug. -/
def categoryFromSlug (slug : String) : String :=
  if slug = "" then "" else (slug.splitOn "-").headD ""

/-- The Trade built from a TRADE activity inside
`AccountService.get_trade_groups` (fee rate fixed at 0, status CONFIRMED,
title and category taken from the activity). -/
def tradeOfActivity (a : Activity) : Trade :=
  { id := a.transactionHash
    market := a.conditionId
    asset_id := a.asset
    side := a.side
    size := a.size
    price := a.price
    fee_rate_bps := 0
    status := "CONFIRMED"
    match_time := a.timestamp
    outcome := a.outcome
    transaction_hash := a.transactionHash
    trader_side := ""
    market_title := a.title
    category := categoryFromSlug a.slug }

/-- The trade-building loop of `get_trade_groups`: keep TRADE activities,
convert each. -/
def tradesOfActivities (l : List Activity) : List Trade :=
  (l.filter fun a => a.type == "TRADE").map tradeOfActivity

/-- Source `redeems`: REDEEM activities pre-grouped by `conditionId` in an
insertion-ordered dict of lists. -/
def redeemsFor (l : List Activity) : List (String × List Activity) :=
  bucketsFor Activity.conditionId (l.filter fun a => a.type == "REDEEM")

/-- Source `redeems.get(cid, [])`. -/
def lookupRedeems (cid : String) : List (String × List Activity) → List Activity
  | [] => []
  | (k, rs) :: bs => if cid = k then rs else lookupRedeems cid bs

/-- Source `sum(Decimal(str(r["usdcSize"])) for r in market_redeems)`. -/
def sumUsdc (rs : List Activity) : ℚ :=
  (rs.map Activity.usdcSize).sum

/-- Source `max(int(r["timestamp"]) for r in market_redeems)` over `r :: rs`. -/
def maxRedeemTime (r : Activity) (rs : List Activity) : Int :=
  rs.foldl (fun m x => max m x.timestamp) r.timestamp

/-- Source `max(market_redeems, key=lambda r: int(r["timestamp"]))` over `r :: rs`
(Python's `max` keeps the first element among maximal keys). -/
def latestRedeem (r : Activity) (rs : List Activity) : Activity :=
  rs.foldl (fun best x => if best.timestamp < x.timestamp then x else best) r

/-- The body of the first reconciliation loop of `get_trade_groups`: when the
group's market has REDEEM entries, add their summed payout to `pnl` and push
`last_match_time` to the max of the existing time and the latest redemption
timestamp; otherwise keep the group unchanged. -/
def augment (rds : List (String × List Activity)) (g : TradeGroup) : TradeGroup :=
  match lookupRedeems g.market rds with
  | [] => g
  | r :: rs =>
    { g with
        pnl := g.pnl + sumUsdc (r :: rs)
        last_match_time := max g.last_match_time (maxRedeemTime r rs) }

/-- The redemption-only group synthesized by the second reconciliation loop
of `get_trade_groups` for a market `cid` whose REDEEM entries are `r :: rs`. -/
def synthGroup (cid : String) (r : Activity) (rs : List Activity) : TradeGroup :=
  let latest := latestRedeem r rs
  { market := cid
    market_title := latest.title
    category := categoryFromSlug latest.slug
    outcome := "—"
    last_match_time := latest.timestamp
    avg_buy_price := 0
    total_bought := 0
    pnl := sumUsdc (r :: rs) }

/-- The second reconciliation loop of `get_trade_groups`: synthesize one
redemption-only group per redeemed market not already covered by a group. -/
def synthGroups (rds : List (String × List Activity)) (groupedMarkets : List String) :
    List TradeGroup :=
  rds.filterMap fun p =>
    match p with
    | (_, []) => none
    | (cid, r :: rs) => if cid ∈ groupedMarkets then none else some (synthGroup cid r rs)

/-- Source `AccountService.get_trade_groups`, starting from the already-fetched
activity list: build Trades from TRADE activities, group them, reconcile
REDEEM activities into the groups, and re-sort descending by
`last_match_time`. -/
def getTradeGroupsFromActivities (activities : List Activity) : List TradeGroup :=
  let groups := group_trades (tradesOfActivities activities)
  let rds := redeemsFor activities
  sortDesc TradeGroup.last_match_time
    (groups.map (augment rds) ++ synthGroups rds (groups.map TradeGroup.market))

/-- The per-record conversion of `AccountService._activities_as_trades`:
a TRADE becomes a fill as reported; a REDEEM with nonzero size becomes a
SELL at effective price `usdcSize / size`; a zero-size REDEEM (and any other
activity type) produces nothing. -/
def activityAsTrade (a : Activity) : Option Trade :=
  if a.type = "TRADE" then
    some { id := a.transactionHash
           market := a.conditionId
           asset_id := a.asset
           side := a.side
           size := a.size
           price := a.price
           fee_rate_bps := 0
           status := "CONFIRMED"
           match_time := a.timestamp
           outcome := a.outcome
           transaction_hash := a.transactionHash
           trader_side := "" }
  else if a.type = "REDEEM" then
    if a.size = 0 then none
    else
      some { id := a.transactionHash
             market := a.conditionId
             asset_id := ""
             side := "SELL"
             size := a.size
             price := a.usdcSize / a.size
             fee_rate_bps := 0
             status := "CONFIRMED"
             match_time := a.timestamp
             outcome := ""
             transaction_hash := a.transactionHash
             trader_side := "" }
  else none

/-- Source `AccountService._activities_as_trades`. -/
def activitiesAsTrades (l : List Activity) : List Trade :=
  l.filterMap activityAsTrade

/-- Source `str(o).strip().lower()` — the case-insensitive trimmed normalization
used by `_current_price_for_outcome`. -/
def normName (s : String) : String := s.trim.toLower

/-- The `for i, o in enumerate(outcomes)` loop of
`_current_price_for_outcome`: at the first normalized name equal to
`target` return `prices[i]`, where an out-of-range index raises into the
surrounding `except` and yields 0 (`List.getD i 0`); with no match fall off
the loop and yield 0. -/
def priceScan (ps : List ℚ) (target : String) : List String → Nat → ℚ
  | [], _ => 0
  | o :: os, i => if normName o = target then ps.getD i 0 else priceScan ps target os (i + 1)

/-- Source `_current_price_for_outcome`: 0 when either array fails to decode,
otherwise the first-match scan of the parallel arrays. -/
def currentPriceForOutcome (info : MarketInfo) (outcome : String) : ℚ :=
  match info.outcomes, info.outcomePrices with
  | some os, some ps => priceScan ps (normName outcome) os 0
  | _, _ => 0

/-- Source `market_map.get(cid, {})` miss: the empty dict decodes its default
`"[]"` strings to two empty arrays. -/
def emptyMarketInfo : MarketInfo :=
  { conditionId := "", outcomes := some [], outcomePrices := some [] }

/-- Source `market_map` lookup.  The dict comprehension keeps the last record per
`conditionId`, hence the reversed search. -/
def findMarket (markets : List MarketInfo) (cid : String) : Option MarketInfo :=
  markets.reverse.find? fun m => m.conditionId == cid

/-- The price used for one open position:
`_current_price_for_outcome(market_map.get(cid, {}), outcome)`. -/
def priceFor (markets : List MarketInfo) (cid outcome : String) : ℚ :=
  currentPriceForOutcome ((findMarket markets cid).getD emptyMarketInfo) outcome

/-- Markets with at least one REDEEM activity (`redeemed`). -/
def redeemedMarkets (l : List Activity) : List String :=
  (l.filter fun a => a.type == "REDEEM").map Activity.conditionId

/-- The TRADE activities of the log. -/
def tradeActs (l : List Activity) : List Activity :=
  l.filter fun a => a.type == "TRADE"

/-- The open-position grouping key `(a["conditionId"], a["outcome"])`. -/
def activityKey (a : Activity) : String × String := (a.conditionId, a.outcome)

/-- Source `[f for f in fills if f["side"] == "BUY"]`. -/
def buysOf (fills : List Activity) : List Activity :=
  fills.filter fun a => a.side == "BUY"

/-- Source `[f for f in fills if f["side"] == "SELL"]`. -/
def sellsOf (fills : List Activity) : List Activity :=
  fills.filter fun a => a.side == "SELL"

/-- Source `sum(Decimal(str(f["size"])) for f in buys)`. -/
def buySizeOf (fills : List Activity) : ℚ :=
  ((buysOf fills).map Activity.size).sum

/-- Source `sum(Decimal(str(f["size"])) for f in sells)`. -/
def sellSizeOf (fills : List Activity) : ℚ :=
  ((sellsOf fills).map Activity.size).sum

/-- Source `net_shares = total_buy_size - total_sell_size`. -/
def netSharesOf (fills : List Activity) : ℚ :=
  buySizeOf fills - sellSizeOf fills

/-- Source `sum(Decimal(str(f["price"])) * Decimal(str(f["size"])) for f in buys)`. -/
def buyValueOf (fills : List Activity) : ℚ :=
  ((buysOf fills).map fun a => a.price * a.size).sum

/-- Source `max(int(f["timestamp"]) for f in buys)`.  On an empty BUY set the
source raises `ValueError`; that branch is modelled by the junk value 0 and
proved unreachable for nonnegative sizes (claim C10). -/
def lastBuyTimeOf (fills : List Activity) : Int :=
  match buysOf fills with
  | [] => 0
  | b :: bs => bs.foldl (fun m x => max m x.timestamp) b.timestamp

/-- Source `meta[cid]`: title and slug of the first TRADE activity of the market. -/
def metaFor (l : List Activity) (cid : String) : String × String :=
  match (tradeActs l).find? (fun a => a.conditionId == cid) with
  | some a => (a.title, a.slug)
  | none => ("", "")

/-- The body of the `open_raw` loop of `get_open_positions` for one bucket:
skip redeemed markets, skip non-positive net share counts, otherwise build
the raw open-position entry. -/
def mkRawPos (activities : List Activity) :
    (String × String) × List Activity → Option RawPos
  | ((cid, outcome), fills) =>
    if cid ∈ redeemedMarkets activities then none
    else if netSharesOf fills ≤ 0 then none
    else some {
      conditionId := cid
      outcome := outcome
      avg_buy_price :=
        if buySizeOf fills = 0 then 0 else buyValueOf fills / buySizeOf fills
      net_shares := netSharesOf fills
      total_bought := buyValueOf fills
      last_buy_time := lastBuyTimeOf fills
      title := (metaFor activities cid).1
      slug := (metaFor activities cid).2 }

/-- Source `open_raw`, already sorted descending by `last_buy_time`. -/
def openRaw (activities : List Activity) : List RawPos :=
  sortDesc RawPos.last_buy_time
    ((bucketsFor activityKey (tradeActs activities)).filterMap (mkRawPos activities))

/-- The dust filter and Position construction of `get_open_positions`:
drop the entry when `price * net_shares <= Decimal("0.01")`. -/
def positionOf (markets : List MarketInfo) (p : RawPos) : Option Position :=
  let price := priceFor markets p.conditionId p.outcome
  if price * p.net_shares ≤ 1/100 then none
  else some {
    market := p.conditionId
    market_title := p.title
    category := categoryFromSlug p.slug
    outcome := p.outcome
    avg_buy_price := p.avg_buy_price
    current_price := price
    net_shares := p.net_shares
    total_bought := p.total_bought
    last_buy_time := p.last_buy_time }

/-- Source `AccountService.get_open_positions`, starting from the already-fetched
activity list and Gamma market records. -/
def getOpenPositions (activities : List Activity) (markets : List MarketInfo) :
    List Position :=
  (openRaw activities).filterMap (positionOf markets)

/-! ## Normalization with validation (claim C9) -/

/-- The Trade construction of `AccountService.get_trades`, which fails with
a structured conversion error on the first absent-or-non-numeric required
numeric field (`size`, `price`, `fee_rate_bps`). -/
def convFill (t : RawFill) : Except NormError Trade :=
  match t.size with
  | none => .error (.missingOrNonNumeric "size")
  | some sz =>
    match t.price with
    | none => .error (.missingOrNonNumeric "price")
    | some pr =>
      match t.fee_rate_bps with
      | none => .error (.missingOrNonNumeric "fee_rate_bps")
      | some fee =>
        .ok { id := t.id
              market := t.market
              asset_id := t.asset_id
              side := t.side
              size := sz
              price := pr
              fee_rate_bps := fee
              status := t.status
              match_time := t.match_time
              outcome := t.outcome
              transaction_hash := t.transaction_hash
              trader_side := t.trader_side }

/-- The loop of `AccountService.get_trades`: convert every raw fill, aborting
the whole call at the first conversion failure. -/
def normFills : List RawFill → Except NormError (List Trade)
  | [] => .ok []
  | t :: ts =>
    match convFill t with
    | .error e => .error e
    | .ok tr =>
      match normFills ts with
      | .error e => .error e
      | .ok rest => .ok (tr :: rest)

/-- The Trade construction of the trade-building loop of
`AccountService.get_trade_groups` for one TRADE activity, failing on the
first absent-or-non-numeric required numeric field. -/
def convTradeActivity (a : RawActivity) : Except NormError Trade :=
  match a.size with
  | none => .error (.missingOrNonNumeric "size")
  | some sz =>
    match a.price with
    | none => .error (.missingOrNonNumeric "price")
    | some pr =>
      match a.timestamp with
      | none => .error (.missingOrNonNumeric "timestamp")
      | some ts =>
        .ok { id := a.transactionHash
              market := a.conditionId
              asset_id := a.asset
              side := a.side
              size := sz
              price := pr
              fee_rate_bps := 0
              status := "CONFIRMED"
              match_time := ts
              outcome := a.outcome
              transaction_hash := a.transactionHash
              trader_side := ""
              market_title := a.title
              category := categoryFromSlug a.slug }

/-- The trade-building loop of `AccountService.get_trade_groups` over raw
activities: non-TRADE entries are passed over, each TRADE entry is converted,
and the first conversion failure aborts the whole call. -/
def normTradeActivities : List RawActivity → Except NormError (List Trade)
  | [] => .ok []
  | a :: as =>
    if a.type = "TRADE" then
      match convTradeActivity a with
      | .error e => .error e
      | .ok t =>
        match normTradeActivities as with
        | .error e => .error e
        | .ok rest => .ok (t :: rest)
    else normTradeActivities as

/-! ## Sample records used by concrete test cases and witnesses -/

/-- A canonical fill with the fields the claims exercise. -/
def sampleTrade (market side : String) (size price fee : ℚ) (time : Int) : Trade :=
  { id := "t"
    market := market
    asset_id := ""
    side := side
    size := size
    price := price
    fee_rate_bps := fee
    status := "CONFIRMED"
    match_time := time
    outcome := "Yes"
    transaction_hash := "h"
    trader_side := "" }

/-- An activity record with the fields the claims exercise. -/
def sampleActivity (ty cid side : String) (size price usdc : ℚ) (time : Int) : Activity :=
  { type := ty
    conditionId := cid
    asset := ""
    side := side
    size := size
    price := price
    usdcSize := usdc
    timestamp := time
    outcome := "Yes"
    title := "T"
    slug := "sports-game"
    transactionHash := "h" }

/-- A raw fill with selectable numeric-field outcomes. -/
def sampleRawFill (size price fee : Option ℚ) : RawFill :=
  { id := "i"
    market := "m"
    asset_id := "a"
    side := "BUY"
    size := size
    price := price
    fee_rate_bps := fee
    status := "MATCHED"
    match_time := 1
    outcome := "Yes"
    transaction_hash := "h"
    trader_side := "TAKER" }

/-- A raw activity with selectable numeric-field outcomes. -/
def sampleRawActivity (ty : String) (size price usdc : Option ℚ) (time : Option Int) :
    RawActivity :=
  { type := ty
    conditionId := "m"
    asset := ""
    side := "BUY"
    size := size
    price := price
    usdcSize := usdc
    timestamp := time
    outcome := "Yes"
    title := "T"
    slug := "sports-game"
    transactionHash := "h" }

/-! ## Properties of the stable descending sort -/

section SortDescThms

variable {α : Type} {β : Type} [LinearOrder β] (key : α → β)

theorem insertDesc_perm (x : α) (l : List α) :
    (insertDesc key x l).Perm (x :: l) := by
  induction l with
  | nil => simp [insertDesc]
  | cons y ys ih =>
    rw [insertDesc]
    by_cases h : key x ≤ key y
    · rw [if_pos h]
      exact (ih.cons y).trans (List.Perm.swap x y ys)
    · rw [if_neg h]

theorem mem_insertDesc {x a : α} {l : List α} :
    a ∈ insertDesc key x l ↔ a = x ∨ a ∈ l := by
  rw [(insertDesc_perm key x l).mem_iff, List.mem_cons]

theorem sortDesc_foldl_perm (l : List α) :
    ∀ acc : List α, (l.foldl (fun acc x => insertDesc key x acc) acc).Perm (acc ++ l) := by
  induction l with
  | nil => intro acc; simp
  | cons x xs ih =>
    intro acc
    have h1 := ih (insertDesc key x acc)
    have h2 : (insertDesc key x acc ++ xs).Perm (acc ++ x :: xs) := by
      refine ((insertDesc_perm key x acc).append_right xs).trans ?_
      exact List.perm_middle.symm
    simpa using h1.trans h2

theorem sortDesc_perm (l : List α) : (sortDesc key l).Perm l := by
  simpa [sortDesc] using sortDesc_foldl_perm key l []

theorem insertDesc_pairwise {x : α} {l : List α}
    (h : l.Pairwise fun a b => key b ≤ key a) :
    (insertDesc key x l).Pairwise fun a b => key b ≤ key a := by
  induction l with
  | nil => simp [insertDesc]
  | cons y ys ih =>
    rw [List.pairwise_cons] at h
    rw [insertDesc]
    by_cases hxy : key x ≤ key y
    · rw [if_pos hxy]
      refine List.pairwise_cons.mpr ⟨?_, ih h.2⟩
      intro z hz
      rcases (mem_insertDesc key).mp hz with hz | hz
      · subst hz; exact hxy
      · exact h.1 z hz
    · rw [if_neg hxy]
      refine List.pairwise_cons.mpr ⟨?_, List.pairwise_cons.mpr h⟩
      intro z hz
      rcases List.mem_cons.mp hz with hz | hz
      · subst hz; exact le_of_lt (not_le.mp hxy)
      · exact (h.1 z hz).trans (le_of_lt (not_le.mp hxy))

theorem sortDesc_pairwise (l : List α) :
    (sortDesc key l).Pairwise fun a b => key b ≤ key a := by
  rw [sortDesc]
  have main : ∀ (l acc : List α), (acc.Pairwise fun a b => key b ≤ key a) →
      (l.foldl (fun acc x => insertDesc key x acc) acc).Pairwise fun a b => key b ≤ key a := by
    intro l
    induction l with
    | nil => intro acc h; simpa using h
    | cons x xs ih =>
      intro acc h
      exact ih (insertDesc key x acc) (insertDesc_pairwise key h)
  exact main l [] (by simp)

end SortDescThms

/-! ## Properties of the grouping buckets -/

section BucketsThms

variable {κ τ : Type} [DecidableEq κ] (key : τ → κ)

theorem keys_addToBuckets (bs : List (κ × List τ)) (t : τ) :
    (addToBuckets key bs t).map Prod.fst =
      if key t ∈ bs.map Prod.fst then bs.map Prod.fst
      else bs.map Prod.fst ++ [key t] := by
  induction bs with
  | nil => simp [addToBuckets]
  | cons p bs ih =>
    obtain ⟨k, ts⟩ := p
    rw [addToBuckets]
    by_cases h : key t = k
    · simp [h]
    · simp only [List.map_cons, List.mem_cons]
      rw [if_neg h, List.map_cons, ih]
      by_cases hmem : key t ∈ bs.map Prod.fst
      · rw [if_pos hmem, if_pos (Or.inr hmem)]
      · rw [if_neg hmem, if_neg (by tauto), List.cons_append]

theorem mem_keys_addToBuckets {x : κ} (bs : List (κ × List τ)) (t : τ) :
    x ∈ (addToBuckets key bs t).map Prod.fst ↔
      x ∈ bs.map Prod.fst ∨ x = key t := by
  rw [keys_addToBuckets]
  by_cases h : key t ∈ bs.map Prod.fst
  · rw [if_pos h]
    constructor
    · exact Or.inl
    · rintro (hx | rfl)
      · exact hx
      · exact h
  · rw [if_neg h]; simp

theorem nodup_keys_addToBuckets {bs : List (κ × List τ)} (t : τ)
    (h : (bs.map Prod.fst).Nodup) :
    ((addToBuckets key bs t).map Prod.fst).Nodup := by
  rw [keys_addToBuckets]
  by_cases hmem : key t ∈ bs.map Prod.fst
  · rw [if_pos hmem]; exact h
  · rw [if_neg hmem]
    rw [List.nodup_append]
    refine ⟨h, List.nodup_singleton _, ?_⟩
    intro x hx hx1
    rcases List.mem_singleton.mp hx1 with rfl
    exact hmem hx

theorem nodup_keys_bucketsFor (l : List τ) :
    ((bucketsFor key l).map Prod.fst).Nodup := by
  rw [bucketsFor]
  have main : ∀ (l : List τ) (acc : List (κ × List τ)),
      (acc.map Prod.fst).Nodup → ((l.foldl (addToBuckets key) acc).map Prod.fst).Nodup := by
    intro l
    induction l with
    | nil => intro acc h; simpa using h
    | cons t ts ih => intro acc h; exact ih _ (nodup_keys_addToBuckets key t h)
  exact main l [] (by simp)

theorem mem_keys_bucketsFor {x : κ} (l : List τ) :
    x ∈ (bucketsFor key l).map Prod.fst ↔ ∃ t ∈ l, key t = x := by
  rw [bucketsFor]
  have main : ∀ (l : List τ) (acc : List (κ × List τ)),
      (x ∈ ((l.foldl (addToBuckets key) acc).map Prod.fst) ↔
        x ∈ acc.map Prod.fst ∨ ∃ t ∈ l, key t = x) := by
    intro l
    induction l with
    | nil => intro acc; simp
    | cons t ts ih =>
      intro acc
      rw [List.foldl_cons, ih]
      rw [mem_keys_addToBuckets]
      constructor
      · rintro ((hx | rfl) | hx)
        · exact Or.inl hx
        · exact Or.inr ⟨t, by simp⟩
        · obtain ⟨u, hu, hk⟩ := hx
          exact Or.inr ⟨u, List.mem_cons_of_mem t hu, hk⟩
      · rintro (hx | ⟨u, hu, hk⟩)
        · exact Or.inl (Or.inl hx)
        · rcases List.mem_cons.mp hu with rfl | hu
          · exact Or.inl (Or.inr hk.symm)
          · exact Or.inr ⟨u, hu, hk⟩
  rw [main l []]; simp

/-- Every bucket is nonempty and holds exactly the elements of its key. -/
theorem good_addToBuckets {bs : List (κ × List τ)} (t : τ)
    (h : ∀ p ∈ bs, p.2 ≠ [] ∧ ∀ u ∈ p.2, key u = p.1) :
    ∀ p ∈ addToBuckets key bs t, p.2 ≠ [] ∧ ∀ u ∈ p.2, key u = p.1 := by
  induction bs with
  | nil =>
    intro p hp
    rw [addToBuckets] at hp
    rcases List.mem_singleton.mp hp with rfl
    refine ⟨by simp, ?_⟩
    intro u hu
    rcases List.mem_singleton.mp hu with rfl
    rfl
  | cons q bs ih =>
    obtain ⟨k, ts⟩ := q
    intro p hp
    rw [addToBuckets] at hp
    by_cases hk : key t = k
    · rw [if_pos hk] at hp
      rcases List.mem_cons.mp hp with rfl | hp
      · refine ⟨by simp, ?_⟩
        intro u hu
        rcases List.mem_append.mp hu with hu | hu
        · exact (h (k, ts) (by simp)).2 u hu
        · rcases List.mem_singleton.mp hu with rfl
          exact hk
      · exact h p (List.mem_cons_of_mem _ hp)
    · rw [if_neg hk] at hp
      rcases List.mem_cons.mp hp with rfl | hp
      · exact h (k, ts) (by simp)
      · exact ih (fun q hq => h q (List.mem_cons_of_mem _ hq)) p hp

theorem good_bucketsFor (l : List τ) :
    ∀ p ∈ bucketsFor key l, p.2 ≠ [] ∧ ∀ u ∈ p.2, key u = p.1 := by
  rw [bucketsFor]
  have main : ∀ (l : List τ) (acc : List (κ × List τ)),
      (∀ p ∈ acc, p.2 ≠ [] ∧ ∀ u ∈ p.2, key u = p.1) →
      ∀ p ∈ l.foldl (addToBuckets key) acc, p.2 ≠ [] ∧ ∀ u ∈ p.2, key u = p.1 := by
    intro l
    induction l with
    | nil => intro acc h; simpa using h
    | cons t ts ih => intro acc h; exact ih _ (good_addToBuckets key t h)
  exact main l [] (by simp)

theorem flatMap_addToBuckets_perm (bs : List (κ × List τ)) (t : τ) :
    ((addToBuckets key bs t).flatMap Prod.snd).Perm (t :: bs.flatMap Prod.snd) := by
  induction bs with
  | nil => simp [addToBuckets]
  | cons q bs ih =>
    obtain ⟨k, ts⟩ := q
    rw [addToBuckets]
    by_cases hk : key t = k
    · rw [if_pos hk]
      simp only [List.flatMap_cons]
      rw [List.append_assoc]
      exact List.perm_middle
    · rw [if_neg hk]
      simp only [List.flatMap_cons]
      refine (ih.append_left ts).trans ?_
      exact List.perm_middle

theorem flatMap_bucketsFor_perm (l : List τ) :
    ((bucketsFor key l).flatMap Prod.snd).Perm l := by
  rw [bucketsFor]
  have main : ∀ (l : List τ) (acc : List (κ × List τ)),
      ((l.foldl (addToBuckets key) acc).flatMap Prod.snd).Perm (acc.flatMap Prod.snd ++ l) := by
    intro l
    induction l with
    | nil => intro acc; simp
    | cons t ts ih =>
      intro acc
      rw [List.foldl_cons]
      refine (ih (addToBuckets key acc t)).trans ?_
      refine ((flatMap_addToBuckets_perm key acc t).append_right ts).trans ?_
      exact List.perm_middle.symm
  simpa using main l []

end BucketsThms

/-! ## PnL engine lemmas -/

theorem addPnl_sum (d : String) (v : ℚ) (bs : List (String × ℚ)) :
    ((addPnl d v bs).map Prod.snd).sum = (bs.map Prod.snd).sum + v := by
  induction bs with
  | nil => simp [addPnl]
  | cons p bs ih =>
    obtain ⟨d0, x⟩ := p
    rw [addPnl]
    by_cases h : d = d0
    · rw [if_pos h]; simp; ring
    · rw [if_neg h]; simp [ih]; ring

theorem dailyStep_sum (dayOf : Int → String) (acc : List (String × ℚ)) (t : Trade) :
    ((dailyStep dayOf acc t).map Prod.snd).sum = (acc.map Prod.snd).sum + trade_pnl t := by
  rw [dailyStep, trade_pnl]
  by_cases h : t.side = "SELL"
  · rw [if_pos h, if_pos h, addPnl_sum]
  · rw [if_neg h, if_neg h, addPnl_sum]

theorem daily_foldl_sum (dayOf : Int → String) (trades : List Trade) :
    ∀ acc : List (String × ℚ),
      (((trades.foldl (dailyStep dayOf) acc).map Prod.snd).sum) =
        (acc.map Prod.snd).sum + (trades.map trade_pnl).sum := by
  induction trades with
  | nil => intro acc; simp
  | cons t ts ih =>
    intro acc
    rw [List.foldl_cons, ih, dailyStep_sum]
    simp; ring

/-! ## Claim C1 -/

/-- C1: for every list of trades (and every timestamp-to-day map),
`total_pnl` of `daily_pnl` equals the direct sum of `trade_pnl` over the
same list, and the value is unchanged under any permutation of the input:
daily bucketing neither loses nor double-counts any per-trade signed cash
flow. -/
theorem claim_C1_total_pnl_daily_pnl (dayOf : Int → String) (trades : List Trade) :
    total_pnl (daily_pnl dayOf trades) = (trades.map trade_pnl).sum ∧
    ∀ trades2 : List Trade, trades.Perm trades2 →
      total_pnl (daily_pnl dayOf trades) = total_pnl (daily_pnl dayOf trades2) := by
  have main : ∀ ts : List Trade,
      total_pnl (daily_pnl dayOf ts) = (ts.map trade_pnl).sum := by
    intro ts
    rw [total_pnl, daily_pnl]
    rw [((sortDesc_perm (Prod.fst : String × ℚ → String)
      (ts.foldl (dailyStep dayOf) [])).map Prod.snd).sum_eq]
    simpa using daily_foldl_sum dayOf ts []
  refine ⟨main trades, ?_⟩
  intro ts2 hperm
  rw [main trades, main ts2]
  exact (hperm.map trade_pnl).sum_eq

/-- Witness for C1 at a concrete two-trade book and its transposition. -/
theorem claim_C1_witness :
    total_pnl (daily_pnl (fun _ => "d")
        [sampleTrade "m" "BUY" 2 (1/2) 0 10, sampleTrade "m" "SELL" 1 (3/4) 100 20]) =
      ([sampleTrade "m" "BUY" 2 (1/2) 0 10, sampleTrade "m" "SELL" 1 (3/4) 100 20].map trade_pnl).sum ∧
    total_pnl (daily_pnl (fun _ => "d")
        [sampleTrade "m" "BUY" 2 (1/2) 0 10, sampleTrade "m" "SELL" 1 (3/4) 100 20]) =
      total_pnl (daily_pnl (fun _ => "d")
        [sampleTrade "m" "SELL" 1 (3/4) 100 20, sampleTrade "m" "BUY" 2 (1/2) 0 10]) := by
  have h := claim_C1_total_pnl_daily_pnl (fun _ => "d")
    [sampleTrade "m" "BUY" 2 (1/2) 0 10, sampleTrade "m" "SELL" 1 (3/4) 100 20]
  exact ⟨h.1, h.2 _ (List.Perm.swap _ _ _)⟩

/-! ## Claim C2 -/

/-- On buckets with nonempty fill lists (which `bucketsFor` always
produces), the aggregation loop emits (market, outcome) keys exactly equal
to the bucket keys. -/
theorem groupKeys_eq (bs : List ((String × String) × List Trade))
    (h : ∀ p ∈ bs, p.2 ≠ []) :
    (bs.filterMap mkGroup).map (fun g => (g.market, g.outcome)) = bs.map Prod.fst := by
  induction bs with
  | nil => simp
  | cons p bs ih =>
    obtain ⟨⟨m, o⟩, fills⟩ := p
    cases fills with
    | nil => exact absurd rfl (h ((m, o), []) (by simp))
    | cons f fs =>
      rw [List.filterMap_cons]
      simp only [mkGroup, List.map_cons]
      rw [ih fun q hq => h q (List.mem_cons_of_mem _ hq)]

/-- C2: `group_trades` produces exactly one group per distinct
(market, outcome) key of the input — the emitted keys are duplicate-free,
every input trade's key appears, every emitted key comes from some input
trade — and the underlying bucketing is an exhaustive, disjoint partition:
the concatenation of all buckets is a permutation of the input. -/
theorem claim_C2_group_trades_partition (trades : List Trade) :
    (((group_trades trades).map fun g => (g.market, g.outcome)).Nodup) ∧
    (∀ t ∈ trades,
      (t.market, t.outcome) ∈ (group_trades trades).map fun g => (g.market, g.outcome)) ∧
    (∀ k ∈ (group_trades trades).map fun g => (g.market, g.outcome),
      ∃ t ∈ trades, (t.market, t.outcome) = k) ∧
    ((bucketsFor tradeKey trades).flatMap Prod.snd).Perm trades := by
  have hgood := good_bucketsFor tradeKey trades
  have heq := groupKeys_eq (bucketsFor tradeKey trades) fun p hp => (hgood p hp).1
  have hkeys : ((group_trades trades).map fun g => (g.market, g.outcome)).Perm
      ((bucketsFor tradeKey trades).map Prod.fst) := by
    rw [group_trades, ← heq]
    exact (sortDesc_perm TradeGroup.last_match_time _).map _
  refine ⟨?_, ?_, ?_, flatMap_bucketsFor_perm tradeKey trades⟩
  · exact hkeys.nodup_iff.mpr (nodup_keys_bucketsFor tradeKey trades)
  · intro t ht
    rw [hkeys.mem_iff, mem_keys_bucketsFor]
    exact ⟨t, ht, rfl⟩
  · intro k hk
    rw [hkeys.mem_iff, mem_keys_bucketsFor] at hk
    obtain ⟨t, ht, hkt⟩ := hk
    exact ⟨t, ht, hkt⟩

/-- Witness for C2 at a concrete three-trade, two-market book. -/
theorem claim_C2_witness :
    ((sampleTrade "m1" "BUY" 1 (1/2) 0 10).market,
      (sampleTrade "m1" "BUY" 1 (1/2) 0 10).outcome) ∈
      ((group_trades [sampleTrade "m1" "BUY" 1 (1/2) 0 10,
        sampleTrade "m2" "SELL" 2 (1/4) 0 30,
        sampleTrade "m1" "SELL" 1 (3/4) 0 20]).map fun g => (g.market, g.outcome)) := by
  have h := claim_C2_group_trades_partition
    [sampleTrade "m1" "BUY" 1 (1/2) 0 10,
      sampleTrade "m2" "SELL" 2 (1/4) 0 30,
      sampleTrade "m1" "SELL" 1 (3/4) 0 20]
  exact h.2.1 _ (List.mem_cons_self _ _)

/-! ## Claim C3 -/

/-- C3: every group emitted by `group_trades` carries the weighted-average
buy price `buyValue / buySize` of its bucket (0 with no BUY members, the
`ℚ` convention `x / 0 = 0` matching the source's guards), the BUY-only
notional as `total_bought`, and the fee-adjusted signed cash flow over all
members as `pnl`; at the book with one BUY (price 0.40, size 100) and one
SELL (price 0.60, size 100, fee 200 bps) these come out as
avg 0.40, bought 40, pnl 18.80. -/
theorem claim_C3_group_aggregates :
    (∀ (trades : List Trade) (g : TradeGroup), g ∈ group_trades trades →
      ∃ fills, ((g.market, g.outcome), fills) ∈ bucketsFor tradeKey trades ∧
        fills ≠ [] ∧
        g.avg_buy_price = buyValue fills / buySize fills ∧
        (buyFills fills = [] → g.avg_buy_price = 0) ∧
        g.total_bought = buyValue fills ∧
        g.pnl = sumPnl fills) ∧
    ((group_trades [sampleTrade "m" "BUY" 100 (2/5) 0 1,
        sampleTrade "m" "SELL" 100 (3/5) 200 2]).map
      (fun g => (g.avg_buy_price, g.total_bought, g.pnl)) = [(2/5, 40, 94/5)]) := by
  constructor
  · intro trades g hg
    rw [group_trades] at hg
    have hg2 := (sortDesc_perm TradeGroup.last_match_time _).mem_iff.mp hg
    obtain ⟨b, hb, hmk⟩ := List.mem_filterMap.mp hg2
    obtain ⟨⟨m, o⟩, fills⟩ := b
    cases fills with
    | nil => simp [mkGroup] at hmk
    | cons f fs =>
      simp only [mkGroup, Option.some.injEq] at hmk
      subst hmk
      refine ⟨f :: fs, hb, by simp, ?_, ?_, ?_, rfl⟩
      · by_cases hbf : buyFills (f :: fs) = []
        · have hsz : buySize (f :: fs) = 0 := by rw [buySize, hbf]; simp
          have hval : buyValue (f :: fs) = 0 := by rw [buyValue, hbf]; simp
          simp [hbf, hsz, hval]
        · by_cases hsz : buySize (f :: fs) = 0
          · simp [hbf, hsz]
          · simp [hbf, hsz]
      · intro hbf; simp [hbf]
      · by_cases hbf : buyFills (f :: fs) = []
        · have hval : buyValue (f :: fs) = 0 := by rw [buyValue, hbf]; simp
          simp [hbf, hval]
        · simp [hbf]
  · norm_num [group_trades, bucketsFor, addToBuckets, sortDesc, insertDesc,
      mkGroup, tradeKey, sampleTrade, maxByTime, buyFills, buySize, buyValue,
      sumPnl, trade_pnl, BPS, List.filterMap_cons, List.foldl_cons,
      show ("BUY":String) ≠ "SELL" by decide,
      show (("BUY":String) == "BUY") = true by rfl,
      show (("SELL":String) == "BUY") = false by rfl]

/-- Witness for C3: its universal part applied to the concrete group of the
0.40/0.60 example book. -/
theorem claim_C3_witness :
    ∃ fills,
      ((("m":String), ("Yes":String)), fills) ∈
        bucketsFor tradeKey [sampleTrade "m" "BUY" 100 (2/5) 0 1,
          sampleTrade "m" "SELL" 100 (3/5) 200 2] ∧
      fills ≠ [] ∧
      (2/5 : ℚ) = buyValue fills / buySize fills ∧
      (buyFills fills = [] → (2/5 : ℚ) = 0) ∧
      (40 : ℚ) = buyValue fills ∧
      (94/5 : ℚ) = sumPnl fills := by
  have hmem : (⟨"m", "", "", "Yes", 2, 2/5, 40, 94/5⟩ : TradeGroup) ∈
      group_trades [sampleTrade "m" "BUY" 100 (2/5) 0 1,
        sampleTrade "m" "SELL" 100 (3/5) 200 2] := by
    norm_num [group_trades, bucketsFor, addToBuckets, sortDesc, insertDesc,
      mkGroup, tradeKey, sampleTrade, maxByTime, buyFills, buySize, buyValue,
      sumPnl, trade_pnl, BPS, List.filterMap_cons, List.foldl_cons,
      show ("BUY":String) ≠ "SELL" by decide,
      show (("BUY":String) == "BUY") = true by rfl,
      show (("SELL":String) == "BUY") = false by rfl]
  simpa using claim_C3_group_aggregates.1 _ _ hmem

/-! ## Claim C5 -/

/-- C5: a REDEEM activity with nonzero size is normalized (by
`_activities_as_trades`) to exactly one SELL-side Trade of the same size at
effective price `usdcSize / size`; a zero-size REDEEM yields no Trade. -/
theorem claim_C5_redeem_as_sell (a : Activity) (hr : a.type = "REDEEM") :
    (a.size ≠ 0 →
      activityAsTrade a = some
        { id := a.transactionHash
          market := a.conditionId
          asset_id := ""
          side := "SELL"
          size := a.size
          price := a.usdcSize / a.size
          fee_rate_bps := 0
          status := "CONFIRMED"
          match_time := a.timestamp
          outcome := ""
          transaction_hash := a.transactionHash
          trader_side := "" } ∧
      activitiesAsTrades [a] =
        [{ id := a.transactionHash
           market := a.conditionId
           asset_id := ""
           side := "SELL"
           size := a.size
           price := a.usdcSize / a.size
           fee_rate_bps := 0
           status := "CONFIRMED"
           match_time := a.timestamp
           outcome := ""
           transaction_hash := a.transactionHash
           trader_side := "" }]) ∧
    (a.size = 0 → activityAsTrade a = none ∧ activitiesAsTrades [a] = []) := by
  constructor
  · intro hsz
    constructor
    · simp [activityAsTrade, hr, hsz]
    · simp [activitiesAsTrades, activityAsTrade, hr, hsz]
  · intro hsz
    constructor
    · simp [activityAsTrade, hr, hsz]
    · simp [activitiesAsTrades, activityAsTrade, hr, hsz]

/-- Witness for C5: a REDEEM of usdcSize 50 over size 100 becomes a SELL at
price 0.50; a zero-size REDEEM disappears. -/
theorem claim_C5_witness :
    activityAsTrade (sampleActivity "REDEEM" "m" "" 100 0 50 5) =
      some { id := "h", market := "m", asset_id := "", side := "SELL", size := 100,
             price := 1/2, fee_rate_bps := 0, status := "CONFIRMED", match_time := 5,
             outcome := "", transaction_hash := "h", trader_side := "" } ∧
    activityAsTrade (sampleActivity "REDEEM" "m" "" 0 0 50 5) = none := by
  constructor
  · have h := (claim_C5_redeem_as_sell (sampleActivity "REDEEM" "m" "" 100 0 50 5) rfl).1
      (by norm_num [sampleActivity])
    rw [h.1]
    norm_num [sampleActivity]
  · exact ((claim_C5_redeem_as_sell (sampleActivity "REDEEM" "m" "" 0 0 50 5) rfl).2 rfl).1

/-! ## Claim C7 -/

/-- C7: both `group_trades` output and the reconciled `get_trade_groups`
output are sorted descending by `last_match_time` (timestamps compared as
integers), and the three-market example with times 100, 300, 200 comes out
ordered 300, 200, 100. -/
theorem claim_C7_output_sorted_desc :
    (∀ trades : List Trade,
      (group_trades trades).Pairwise fun a b => b.last_match_time ≤ a.last_match_time) ∧
    (∀ activities : List Activity,
      (getTradeGroupsFromActivities activities).Pairwise
        fun a b => b.last_match_time ≤ a.last_match_time) ∧
    ((group_trades [sampleTrade "m1" "BUY" 1 1 0 100,
        sampleTrade "m2" "BUY" 1 1 0 300,
        sampleTrade "m3" "BUY" 1 1 0 200]).map TradeGroup.last_match_time =
      [300, 200, 100]) := by
  refine ⟨?_, ?_, ?_⟩
  · intro trades
    exact sortDesc_pairwise TradeGroup.last_match_time _
  · intro activities
    exact sortDesc_pairwise TradeGroup.last_match_time _
  · norm_num [group_trades, bucketsFor, addToBuckets, sortDesc, insertDesc,
      mkGroup, tradeKey, sampleTrade, maxByTime, List.filterMap_cons, List.foldl_cons,
      show ("m2":String) ≠ "m1" by decide,
      show ("m3":String) ≠ "m1" by decide,
      show ("m3":String) ≠ "m2" by decide]

/-- Witness for C7: its first part applied at the concrete three-trade book. -/
theorem claim_C7_witness :
    (group_trades [sampleTrade "m1" "BUY" 1 1 0 100,
      sampleTrade "m2" "BUY" 1 1 0 300,
      sampleTrade "m3" "BUY" 1 1 0 200]).Pairwise
        (fun a b => b.last_match_time ≤ a.last_match_time) :=
  claim_C7_output_sorted_desc.1 _

/-! ## Claim C8 -/

theorem priceScan_eq_zero (ps : List ℚ) (target : String) :
    ∀ (os : List String) (k : Nat), (∀ o ∈ os, normName o ≠ target) →
      priceScan ps target os k = 0 := by
  intro os
  induction os with
  | nil => intro k h; rfl
  | cons o os ih =>
    intro k h
    rw [priceScan, if_neg (h o (by simp))]
    exact ih (k + 1) fun o2 h2 => h o2 (List.mem_cons_of_mem _ h2)

theorem priceScan_first_match (ps : List ℚ) (target : String) :
    ∀ (os : List String) (i k : Nat), i < os.length →
      normName (os.getD i "") = target →
      (∀ j, j < i → normName (os.getD j "") ≠ target) →
      priceScan ps target os k = ps.getD (k + i) 0 := by
  intro os
  induction os with
  | nil => intro i k h; exact absurd h (by simp)
  | cons o os ih =>
    intro i k hlen hmatch hfirst
    cases i with
    | zero =>
      rw [priceScan, if_pos (by simpa using hmatch), Nat.add_zero]
    | succ i2 =>
      have hne : normName o ≠ target := by simpa using hfirst 0 (Nat.succ_pos i2)
      rw [priceScan, if_neg hne]
      have h2 : i2 < os.length := by simpa using Nat.lt_of_succ_lt_succ hlen
      have hm2 : normName (os.getD i2 "") = target := by simpa using hmatch
      have hf2 : ∀ j, j < i2 → normName (os.getD j "") ≠ target := by
        intro j hj
        simpa using hfirst (j + 1) (Nat.succ_lt_succ hj)
      rw [ih i2 (k + 1) h2 hm2 hf2]
      congr 1
      omega

/-- C8: the current-price lookup matches the requested outcome by
case-insensitive, whitespace-trimmed equality over the parallel
outcome-name/outcome-price arrays and returns exactly 0 on every failure —
undecodable arrays, no matching outcome, an index beyond the price array
(`List.getD` supplies the absorbed-exception default 0), or a market missing
from the fetched map.  As a total `ℚ`-valued function it never propagates an
error into the open-position computation. -/
theorem claim_C8_price_lookup (info : MarketInfo) (outcome : String) :
    (info.outcomes = none → currentPriceForOutcome info outcome = 0) ∧
    (info.outcomePrices = none → currentPriceForOutcome info outcome = 0) ∧
    (∀ os, info.outcomes = some os → (∀ o ∈ os, normName o ≠ normName outcome) →
      currentPriceForOutcome info outcome = 0) ∧
    (∀ os ps i, info.outcomes = some os → info.outcomePrices = some ps →
      i < os.length → normName (os.getD i "") = normName outcome →
      (∀ j, j < i → normName (os.getD j "") ≠ normName outcome) →
      currentPriceForOutcome info outcome = ps.getD i 0) ∧
    (∀ (markets : List MarketInfo) cid oc,
      findMarket markets cid = none → priceFor markets cid oc = 0) := by
  obtain ⟨cid, oos, ops⟩ := info
  refine ⟨?_, ?_, ?_, ?_, ?_⟩
  · rintro rfl
    cases ops <;> rfl
  · rintro rfl
    cases oos <;> rfl
  · rintro os rfl hnone
    cases ops with
    | none => rfl
    | some ps => exact priceScan_eq_zero ps (normName outcome) os 0 hnone
  · rintro os ps i rfl rfl hlen hmatch hfirst
    simpa using priceScan_first_match ps (normName outcome) os i 0 hlen hmatch hfirst
  · intro markets c oc hf
    rw [priceFor, hf]
    rfl

/-- Witness for C8: a one-outcome market resolves the matching name to its
price, and an undecodable outcome array resolves to 0. -/
theorem claim_C8_witness :
    currentPriceForOutcome ⟨"m", some ["Yes"], some [3/4]⟩ "Yes" =
      ([(3/4 : ℚ)]).getD 0 0 ∧
    currentPriceForOutcome ⟨"m", none, some [3/4]⟩ "Yes" = 0 := by
  constructor
  · exact (claim_C8_price_lookup ⟨"m", some ["Yes"], some [3/4]⟩ "Yes").2.2.2.1
      ["Yes"] [3/4] 0 rfl rfl (by simp) rfl (by omega)
  · exact (claim_C8_price_lookup ⟨"m", none, some [3/4]⟩ "Yes").1 rfl

/-! ## Claim C9 -/

theorem convFill_error_of_bad (f : RawFill)
    (h : f.size = none ∨ f.price = none ∨ f.fee_rate_bps = none) :
    ∃ e, convFill f = .error e := by
  cases hs : f.size with
  | none => simp [convFill, hs]
  | some s =>
    cases hp : f.price with
    | none => simp [convFill, hs, hp]
    | some p =>
      cases hb : f.fee_rate_bps with
      | none => simp [convFill, hs, hp, hb]
      | some b =>
        rcases h with h | h | h <;> simp_all

theorem convFill_ok_of_good (f : RawFill)
    (h : f.size ≠ none ∧ f.price ≠ none ∧ f.fee_rate_bps ≠ none) :
    ∃ t, convFill f = .ok t := by
  cases hs : f.size with
  | none => exact absurd hs h.1
  | some s =>
    cases hp : f.price with
    | none => exact absurd hp h.2.1
    | some p =>
      cases hb : f.fee_rate_bps with
      | none => exact absurd hb h.2.2
      | some b => simp [convFill, hs, hp, hb]

theorem normFills_error_of_bad :
    ∀ fills : List RawFill,
      (∃ f ∈ fills, f.size = none ∨ f.price = none ∨ f.fee_rate_bps = none) →
      ∃ e, normFills fills = .error e := by
  intro fills
  induction fills with
  | nil => rintro ⟨f, hf, hbad⟩; cases hf
  | cons g gs ih =>
    rintro ⟨f, hf, hbad⟩
    cases hcg : convFill g with
    | error e => exact ⟨e, by simp [normFills, hcg]⟩
    | ok t =>
      rcases List.mem_cons.mp hf with rfl | hf2
      · obtain ⟨e, he⟩ := convFill_error_of_bad f hbad
        rw [he] at hcg
        cases hcg
      · obtain ⟨e2, he2⟩ := ih ⟨f, hf2, hbad⟩
        exact ⟨e2, by simp [normFills, hcg, he2]⟩

theorem normFills_ok_of_good :
    ∀ fills : List RawFill,
      (∀ f ∈ fills, f.size ≠ none ∧ f.price ≠ none ∧ f.fee_rate_bps ≠ none) →
      ∃ ts, normFills fills = .ok ts ∧ ts.length = fills.length := by
  intro fills
  induction fills with
  | nil => intro h; exact ⟨[], rfl, rfl⟩
  | cons g gs ih =>
    intro h
    obtain ⟨t, ht⟩ := convFill_ok_of_good g (h g (by simp))
    obtain ⟨ts, hts, hlen⟩ := ih fun f hf => h f (List.mem_cons_of_mem _ hf)
    exact ⟨t :: ts, by simp [normFills, ht, hts], by simp [hlen]⟩

theorem convTradeActivity_error_of_bad (a : RawActivity)
    (h : a.size = none ∨ a.price = none ∨ a.timestamp = none) :
    ∃ e, convTradeActivity a = .error e := by
  cases hs : a.size with
  | none => simp [convTradeActivity, hs]
  | some s =>
    cases hp : a.price with
    | none => simp [convTradeActivity, hs, hp]
    | some p =>
      cases hb : a.timestamp with
      | none => simp [convTradeActivity, hs, hp, hb]
      | some b =>
        rcases h with h | h | h <;> simp_all

theorem convTradeActivity_ok_of_good (a : RawActivity)
    (h : a.size ≠ none ∧ a.price ≠ none ∧ a.timestamp ≠ none) :
    ∃ t, convTradeActivity a = .ok t := by
  cases hs : a.size with
  | none => exact absurd hs h.1
  | some s =>
    cases hp : a.price with
    | none => exact absurd hp h.2.1
    | some p =>
      cases hb : a.timestamp with
      | none => exact absurd hb h.2.2
      | some b => simp [convTradeActivity, hs, hp, hb]

theorem normTradeActivities_error_of_bad :
    ∀ acts : List RawActivity,
      (∃ a ∈ acts, a.type = "TRADE" ∧ (a.size = none ∨ a.price = none ∨ a.timestamp = none)) →
      ∃ e, normTradeActivities acts = .error e := by
  intro acts
  induction acts with
  | nil => rintro ⟨a, ha, hbad⟩; cases ha
  | cons g gs ih =>
    rintro ⟨a, ha, hty, hbad⟩
    by_cases hg : g.type = "TRADE"
    · cases hcg : convTradeActivity g with
      | error e => exact ⟨e, by simp [normTradeActivities, hg, hcg]⟩
      | ok t =>
        rcases List.mem_cons.mp ha with rfl | ha2
        · obtain ⟨e, he⟩ := convTradeActivity_error_of_bad a hbad
          rw [he] at hcg
          cases hcg
        · obtain ⟨e2, he2⟩ := ih ⟨a, ha2, hty, hbad⟩
          exact ⟨e2, by simp [normTradeActivities, hg, hcg, he2]⟩
    · rcases List.mem_cons.mp ha with rfl | ha2
      · exact absurd hty hg
      · obtain ⟨e2, he2⟩ := ih ⟨a, ha2, hty, hbad⟩
        exact ⟨e2, by simp [normTradeActivities, hg, he2]⟩

theorem normTradeActivities_ok_of_good :
    ∀ acts : List RawActivity,
      (∀ a ∈ acts, a.type = "TRADE" → a.size ≠ none ∧ a.price ≠ none ∧ a.timestamp ≠ none) →
      ∃ ts, normTradeActivities acts = .ok ts ∧
        ts.length = (acts.filter fun a => a.type == "TRADE").length := by
  intro acts
  induction acts with
  | nil => intro h; exact ⟨[], rfl, rfl⟩
  | cons g gs ih =>
    intro h
    obtain ⟨ts, hts, hlen⟩ := ih fun a ha => h a (List.mem_cons_of_mem _ ha)
    by_cases hg : g.type = "TRADE"
    · obtain ⟨t, ht⟩ := convTradeActivity_ok_of_good g (h g (by simp) hg)
      refine ⟨t :: ts, by simp [normTradeActivities, hg, ht, hts], ?_⟩
      rw [List.filter_cons_of_pos (by simp [hg])]
      simp [hlen]
    · refine ⟨ts, by simp [normTradeActivities, hg, hts], ?_⟩
      rw [List.filter_cons_of_neg (by simp [hg])]
      exact hlen

/-- C9: normalization of raw fills (`get_trades`) and of raw TRADE
activities (`get_trade_groups`) fails the whole call with a structured
conversion error as soon as any required numeric field is absent or
non-numeric; when all required fields are present it succeeds and converts
every record — none is silently skipped or defaulted. -/
theorem claim_C9_normalization_strict :
    (∀ fills : List RawFill,
      ((∃ f ∈ fills, f.size = none ∨ f.price = none ∨ f.fee_rate_bps = none) →
        ∃ e, normFills fills = .error e) ∧
      ((∀ f ∈ fills, f.size ≠ none ∧ f.price ≠ none ∧ f.fee_rate_bps ≠ none) →
        ∃ ts, normFills fills = .ok ts ∧ ts.length = fills.length)) ∧
    (∀ acts : List RawActivity,
      ((∃ a ∈ acts, a.type = "TRADE" ∧
          (a.size = none ∨ a.price = none ∨ a.timestamp = none)) →
        ∃ e, normTradeActivities acts = .error e) ∧
      ((∀ a ∈ acts, a.type = "TRADE" →
          a.size ≠ none ∧ a.price ≠ none ∧ a.timestamp ≠ none) →
        ∃ ts, normTradeActivities acts = .ok ts ∧
          ts.length = (acts.filter fun a => a.type == "TRADE").length)) :=
  ⟨fun fills => ⟨normFills_error_of_bad fills, normFills_ok_of_good fills⟩,
   fun acts => ⟨normTradeActivities_error_of_bad acts, normTradeActivities_ok_of_good acts⟩⟩

/-- Witness for C9: one fill with a missing size aborts the call; a fully
numeric fill list converts completely. -/
theorem claim_C9_witness :
    (∃ e, normFills [sampleRawFill none (some 1) (some 0)] = .error e) ∧
    (∃ ts, normFills [sampleRawFill (some 2) (some 1) (some 0)] = .ok ts ∧
      ts.length = 1) ∧
    (∃ e, normTradeActivities
      [sampleRawActivity "TRADE" (some 1) none (some 1) (some 7)] = .error e) := by
  refine ⟨?_, ?_, ?_⟩
  · exact (claim_C9_normalization_strict.1 _).1 ⟨_, List.mem_cons_self _ _, Or.inl rfl⟩
  · simpa using (claim_C9_normalization_strict.1 _).2 (by decide)
  · exact (claim_C9_normalization_strict.2 _).1
      ⟨_, List.mem_cons_self _ _, rfl, Or.inr (Or.inl rfl)⟩

/-! ## Claim C10 -/

/-- C10: under the data model's size invariant (sizes nonnegative), every
(market, outcome) partition of the open-position resolver that passes the
`net_shares > 0` check has at least one BUY fill and strictly positive total
BUY size, so the `avg_buy_price` division and the `last_buy_time` maximum
over BUY timestamps are well-defined. -/
theorem claim_C10_buys_nonempty (activities : List Activity)
    (hsz : ∀ a ∈ activities, 0 ≤ a.size) :
    ∀ k fills, (k, fills) ∈ bucketsFor activityKey (tradeActs activities) →
      0 < netSharesOf fills →
      buysOf fills ≠ [] ∧ 0 < buySizeOf fills := by
  intro k fills hb hnet
  have hfill : ∀ t ∈ fills, 0 ≤ t.size := by
    intro t ht
    have hjoin : t ∈ (bucketsFor activityKey (tradeActs activities)).flatMap Prod.snd :=
      List.mem_flatMap.mpr ⟨(k, fills), hb, ht⟩
    have htr : t ∈ tradeActs activities :=
      (flatMap_bucketsFor_perm activityKey (tradeActs activities)).mem_iff.mp hjoin
    exact hsz t (List.mem_filter.mp htr).1
  have hsell : 0 ≤ sellSizeOf fills := by
    rw [sellSizeOf]
    apply List.sum_nonneg
    intro x hx
    obtain ⟨a, ha, rfl⟩ := List.mem_map.mp hx
    exact hfill a (List.mem_filter.mp ha).1
  have hbuy : 0 < buySizeOf fills := by
    rw [netSharesOf] at hnet
    linarith
  refine ⟨?_, hbuy⟩
  intro hempty
  rw [buySizeOf, hempty] at hbuy
  simp at hbuy

/-- Witness for C10 at a one-BUY activity log. -/
theorem claim_C10_witness :
    buysOf [sampleActivity "TRADE" "m" "BUY" 5 1 0 1] ≠ [] ∧
    0 < buySizeOf [sampleActivity "TRADE" "m" "BUY" 5 1 0 1] := by
  refine claim_C10_buys_nonempty [sampleActivity "TRADE" "m" "BUY" 5 1 0 1]
    (by intro a ha; rcases List.mem_singleton.mp ha with rfl; norm_num [sampleActivity])
    ("m", "Yes") [sampleActivity "TRADE" "m" "BUY" 5 1 0 1] ?_ ?_
  · norm_num [bucketsFor, addToBuckets, tradeActs, activityKey, sampleActivity,
      List.foldl_cons]
  · norm_num [netSharesOf, buySizeOf, sellSizeOf, buysOf, sellsOf, sampleActivity,
      show (("BUY":String) == "SELL") = false by rfl]

/-! ## Claim C6 -/

/-- C6: under the data model's size invariant, every Position emitted by the
open-position resolver has strictly positive net shares (equal to BUY size
minus SELL size of its (market, outcome) partition), belongs to a market
with no REDEEM activity, and has current value strictly above the 0.01 dust
threshold; the concrete net 5 position is excluded at price 0.001 (value
0.005) and included at price 0.01 (value 0.05). -/
theorem claim_C6_open_position_invariants :
    (∀ (activities : List Activity) (markets : List MarketInfo),
      (∀ a ∈ activities, 0 ≤ a.size) →
      ∀ p ∈ getOpenPositions activities markets,
        0 < p.net_shares ∧
        (∀ a ∈ activities, a.type = "REDEEM" → a.conditionId ≠ p.market) ∧
        1/100 < p.current_price * p.net_shares ∧
        ∃ fills, ((p.market, p.outcome), fills) ∈
            bucketsFor activityKey (tradeActs activities) ∧
          p.net_shares = netSharesOf fills) ∧
    (getOpenPositions [sampleActivity "TRADE" "m" "BUY" 5 (1/2) 0 1]
      [⟨"m", some ["Yes"], some [1/1000]⟩] = []) ∧
    (∃ p ∈ getOpenPositions [sampleActivity "TRADE" "m" "BUY" 5 (1/2) 0 1]
      [⟨"m", some ["Yes"], some [1/100]⟩], p.net_shares = 5 ∧ p.current_price = 1/100) := by
  refine ⟨?_, ?_, ?_⟩
  · intro activities markets hsz p hp
    rw [getOpenPositions] at hp
    obtain ⟨rp, hrp, hpos⟩ := List.mem_filterMap.mp hp
    rw [positionOf] at hpos
    by_cases hdust :
        priceFor markets rp.conditionId rp.outcome * rp.net_shares ≤ 1/100
    · rw [if_pos hdust] at hpos
      cases hpos
    · rw [if_neg hdust] at hpos
      have hp2 := Option.some.inj hpos
      subst hp2
      rw [openRaw] at hrp
      have hrp2 := (sortDesc_perm RawPos.last_buy_time _).mem_iff.mp hrp
      obtain ⟨⟨⟨cid, oc⟩, fills⟩, hbk, hmk⟩ := List.mem_filterMap.mp hrp2
      rw [mkRawPos] at hmk
      by_cases hred : cid ∈ redeemedMarkets activities
      · rw [if_pos hred] at hmk
        cases hmk
      · rw [if_neg hred] at hmk
        by_cases hnet : netSharesOf fills ≤ 0
        · rw [if_pos hnet] at hmk
          cases hmk
        · rw [if_neg hnet] at hmk
          have hrp3 := Option.some.inj hmk
          subst hrp3
          refine ⟨lt_of_not_le hnet, ?_, lt_of_not_le hdust, fills, hbk, rfl⟩
          intro a ha hty heq
          exact hred (List.mem_map.mpr
            ⟨a, List.mem_filter.mpr ⟨ha, by simp [hty]⟩, heq⟩)
  · norm_num [getOpenPositions, openRaw, mkRawPos, bucketsFor, addToBuckets,
      tradeActs, activityKey, redeemedMarkets, buysOf, sellsOf, buySizeOf,
      sellSizeOf, netSharesOf, buyValueOf, lastBuyTimeOf, metaFor,
      sampleActivity, positionOf, priceFor, findMarket, currentPriceForOutcome,
      priceScan, sortDesc, insertDesc, List.filterMap_cons, List.foldl_cons,
      List.find?_cons,
      show (("BUY":String) == "SELL") = false by rfl,
      show (("BUY":String) == "BUY") = true by rfl,
      show (("TRADE":String) == "TRADE") = true by rfl,
      show (("TRADE":String) == "REDEEM") = false by rfl,
      show (("m":String) == "m") = true by rfl]
  · norm_num [getOpenPositions, openRaw, mkRawPos, bucketsFor, addToBuckets,
      tradeActs, activityKey, redeemedMarkets, buysOf, sellsOf, buySizeOf,
      sellSizeOf, netSharesOf, buyValueOf, lastBuyTimeOf, metaFor,
      sampleActivity, positionOf, priceFor, findMarket, currentPriceForOutcome,
      priceScan, sortDesc, insertDesc, List.filterMap_cons, List.foldl_cons,
      List.find?_cons,
      show (("BUY":String) == "SELL") = false by rfl,
      show (("BUY":String) == "BUY") = true by rfl,
      show (("TRADE":String) == "TRADE") = true by rfl,
      show (("TRADE":String) == "REDEEM") = false by rfl,
      show (("m":String) == "m") = true by rfl]

/-- Witness for C6: its universal part applied to the included net-5 at
price-0.01 position. -/
theorem claim_C6_witness :
    ∃ p ∈ getOpenPositions [sampleActivity "TRADE" "m" "BUY" 5 (1/2) 0 1]
        [⟨"m", some ["Yes"], some [1/100]⟩],
      0 < p.net_shares ∧ 1/100 < p.current_price * p.net_shares := by
  obtain ⟨p, hp, _⟩ := claim_C6_open_position_invariants.2.2
  have h := claim_C6_open_position_invariants.1
    [sampleActivity "TRADE" "m" "BUY" 5 (1/2) 0 1]
    [⟨"m", some ["Yes"], some [1/100]⟩]
    (by intro a ha; rcases List.mem_singleton.mp ha with rfl; norm_num [sampleActivity])
    p hp
  exact ⟨p, hp, h.1, h.2.2.1⟩

/-! ## Claim C4 -/

theorem latestRedeem_timestamp :
    ∀ (rs : List Activity) (r : Activity),
      (latestRedeem r rs).timestamp = maxRedeemTime r rs := by
  intro rs
  induction rs with
  | nil => intro r; rfl
  | cons x rs ih =>
    intro r
    have hx : (if r.timestamp < x.timestamp then x else r).timestamp =
        max r.timestamp x.timestamp := by
      by_cases h : r.timestamp < x.timestamp
      · rw [if_pos h, max_eq_right (le_of_lt h)]
      · rw [if_neg h, max_eq_left (not_lt.mp h)]
    have h1 : latestRedeem r (x :: rs) =
        latestRedeem (if r.timestamp < x.timestamp then x else r) rs := rfl
    have h2 : maxRedeemTime r (x :: rs) =
        rs.foldl (fun m y => max m y.timestamp) (max r.timestamp x.timestamp) := rfl
    rw [h1, h2, ih, maxRedeemTime, hx]

theorem augment_market (rds : List (String × List Activity)) (g : TradeGroup) :
    (augment rds g).market = g.market := by
  cases h : lookupRedeems g.market rds with
  | nil => simp [augment, h]
  | cons r rs => simp [augment, h]

theorem augment_eq_of_lookup (rds : List (String × List Activity)) (g : TradeGroup)
    (r : Activity) (rs : List Activity)
    (h : lookupRedeems g.market rds = r :: rs) :
    augment rds g =
      { g with
          pnl := g.pnl + sumUsdc (r :: rs)
          last_match_time := max g.last_match_time (maxRedeemTime r rs) } := by
  simp [augment, h]

theorem countP_synthGroups_zero (gm : List String) (cid : String) :
    ∀ rds : List (String × List Activity), cid ∉ rds.map Prod.fst →
      (synthGroups rds gm).countP (fun g => decide (g.market = cid)) = 0 := by
  intro rds h
  rw [List.countP_eq_zero]
  intro g hg
  obtain ⟨⟨k, l⟩, hk, hsome⟩ := List.mem_filterMap.mp hg
  cases l with
  | nil => simp at hsome
  | cons r rest =>
    by_cases hgm : k ∈ gm
    · simp [hgm] at hsome
    · have hsome2 : (if k ∈ gm then none else some (synthGroup k r rest)) = some g := hsome
      rw [if_neg hgm] at hsome2
      have hge := Option.some.inj hsome2
      subst hge
      have hkne : k ≠ cid := fun he => h (he ▸ List.mem_map.mpr ⟨(k, r :: rest), hk, rfl⟩)
      simp [synthGroup, hkne]

theorem countP_synthGroups_one (gm : List String) (cid : String) (rs : List Activity)
    (hne : rs ≠ []) (hgm : cid ∉ gm) :
    ∀ rds : List (String × List Activity), (rds.map Prod.fst).Nodup →
      (cid, rs) ∈ rds →
      (synthGroups rds gm).countP (fun g => decide (g.market = cid)) = 1 := by
  intro rds
  induction rds with
  | nil => intro _ hmem; cases hmem
  | cons p tail ih =>
    obtain ⟨k, l⟩ := p
    intro hnodup hmem
    rw [List.map_cons, List.nodup_cons] at hnodup
    rcases List.mem_cons.mp hmem with heq | htail
    · injection heq with h1 h2
      subst h1
      subst h2
      cases rs with
      | nil => exact absurd rfl hne
      | cons r rest =>
        simp only [synthGroups, List.filterMap_cons]
        rw [if_neg hgm]
        rw [List.countP_cons]
        have hz := countP_synthGroups_zero gm cid tail hnodup.1
        rw [synthGroups] at hz
        rw [hz]
        simp [synthGroup]
    · have hkne : k ≠ cid := by
        intro he
        subst he
        exact hnodup.1 (List.mem_map.mpr ⟨(k, rs), htail, rfl⟩)
      cases l with
      | nil =>
        simp only [synthGroups, List.filterMap_cons]
        rw [synthGroups] at ih
        exact ih hnodup.2 htail
      | cons r rest =>
        by_cases hkgm : k ∈ gm
        · simp only [synthGroups, List.filterMap_cons]
          rw [if_pos hkgm]
          rw [synthGroups] at ih
          exact ih hnodup.2 htail
        · simp only [synthGroups, List.filterMap_cons]
          rw [if_neg hkgm]
          rw [List.countP_cons]
          rw [synthGroups] at ih
          rw [ih hnodup.2 htail]
          simp [synthGroup, hkne]

/-- C4: reconciliation of REDEEM activities into the trade groups.  For a
group whose market has REDEEM entries, the output contains the group with
the summed redemption payout added to its pnl and `last_match_time` pushed
to the max of its time and the latest redemption timestamp.  For a market
with REDEEM entries but no group, the output contains exactly one
redemption-only group with sentinel outcome "—", zero average buy price and
bought notional, pnl equal to the summed payout, and the latest redemption
timestamp. -/
theorem claim_C4_redemption_reconciliation (activities : List Activity) :
    (∀ g ∈ group_trades (tradesOfActivities activities), ∀ r rs,
      lookupRedeems g.market (redeemsFor activities) = r :: rs →
      ∃ g2 ∈ getTradeGroupsFromActivities activities,
        g2.market = g.market ∧ g2.outcome = g.outcome ∧
        g2.avg_buy_price = g.avg_buy_price ∧ g2.total_bought = g.total_bought ∧
        g2.pnl = g.pnl + sumUsdc (r :: rs) ∧
        g2.last_match_time = max g.last_match_time (maxRedeemTime r rs)) ∧
    (∀ cid rs, (cid, rs) ∈ redeemsFor activities →
      cid ∉ (group_trades (tradesOfActivities activities)).map TradeGroup.market →
      ((getTradeGroupsFromActivities activities).countP
          fun g2 => decide (g2.market = cid)) = 1 ∧
      ∃ r rest, rs = r :: rest ∧
        ∃ g2 ∈ getTradeGroupsFromActivities activities,
          g2.market = cid ∧ g2.outcome = "—" ∧ g2.avg_buy_price = 0 ∧
          g2.total_bought = 0 ∧ g2.pnl = sumUsdc rs ∧
          g2.last_match_time = maxRedeemTime r rest) := by
  have hout : getTradeGroupsFromActivities activities =
      sortDesc TradeGroup.last_match_time
        ((group_trades (tradesOfActivities activities)).map
            (augment (redeemsFor activities)) ++
          synthGroups (redeemsFor activities)
            ((group_trades (tradesOfActivities activities)).map TradeGroup.market)) := rfl
  have hperm := hout ▸ sortDesc_perm TradeGroup.last_match_time
    ((group_trades (tradesOfActivities activities)).map
        (augment (redeemsFor activities)) ++
      synthGroups (redeemsFor activities)
        ((group_trades (tradesOfActivities activities)).map TradeGroup.market))
  constructor
  · intro g hg r rs hlk
    refine ⟨augment (redeemsFor activities) g, ?_, ?_⟩
    · exact hperm.mem_iff.mpr
        (List.mem_append_left _ (List.mem_map.mpr ⟨g, hg, rfl⟩))
    · rw [augment_eq_of_lookup _ _ _ _ hlk]
      exact ⟨rfl, rfl, rfl, rfl, rfl, rfl⟩
  · intro cid rs hmem hnot
    have hne : rs ≠ [] :=
      (good_bucketsFor Activity.conditionId
        (activities.filter fun a => a.type == "REDEEM") (cid, rs) hmem).1
    obtain ⟨r, rest, rfl⟩ : ∃ r rest, rs = r :: rest := by
      cases rs with
      | nil => exact absurd rfl hne
      | cons r rest => exact ⟨r, rest, rfl⟩
    have hsynth : synthGroup cid r rest ∈
        synthGroups (redeemsFor activities)
          ((group_trades (tradesOfActivities activities)).map TradeGroup.market) := by
      refine List.mem_filterMap.mpr ⟨(cid, r :: rest), hmem, ?_⟩
      simp only
      rw [if_neg hnot]
    constructor
    · rw [hperm.countP_eq, List.countP_append]
      have hA : ((group_trades (tradesOfActivities activities)).map
          (augment (redeemsFor activities))).countP
            (fun g2 => decide (g2.market = cid)) = 0 := by
        rw [List.countP_eq_zero]
        intro g2 hg2
        obtain ⟨g, hgg, rfl⟩ := List.mem_map.mp hg2
        simp only [augment_market, decide_eq_true_eq]
        intro he
        exact hnot (he ▸ List.mem_map.mpr ⟨g, hgg, rfl⟩)
      have hS := countP_synthGroups_one
        ((group_trades (tradesOfActivities activities)).map TradeGroup.market)
        cid (r :: rest) (by simp) hnot (redeemsFor activities)
        (nodup_keys_bucketsFor Activity.conditionId _) hmem
      rw [hA, hS]
    · refine ⟨r, rest, rfl, synthGroup cid r rest,
        hperm.mem_iff.mpr (List.mem_append_right _ hsynth), rfl, rfl, rfl, rfl, rfl, ?_⟩
      exact latestRedeem_timestamp rest r

/-- Witness for C4 at a log with one traded-and-redeemed market and one
redeem-only market. -/
theorem claim_C4_witness :
    (∃ g2 ∈ getTradeGroupsFromActivities
        [sampleActivity "TRADE" "m" "BUY" 1 1 0 10,
         sampleActivity "REDEEM" "m" "" 1 0 7 20,
         sampleActivity "REDEEM" "m2" "" 1 0 9 30],
      g2.market = "m" ∧ g2.pnl = -1 + sumUsdc [sampleActivity "REDEEM" "m" "" 1 0 7 20]) ∧
    ((getTradeGroupsFromActivities
        [sampleActivity "TRADE" "m" "BUY" 1 1 0 10,
         sampleActivity "REDEEM" "m" "" 1 0 7 20,
         sampleActivity "REDEEM" "m2" "" 1 0 9 30]).countP
      fun g2 => decide (g2.market = "m2")) = 1 := by
  have hstr1 : (("TRADE":String) == "TRADE") = true := rfl
  have hstr2 : (("REDEEM":String) == "TRADE") = false := rfl
  have hstr3 : (("TRADE":String) == "REDEEM") = false := rfl
  have hstr4 : (("REDEEM":String) == "REDEEM") = true := rfl
  have hgeval : group_trades (tradesOfActivities
      [sampleActivity "TRADE" "m" "BUY" 1 1 0 10,
       sampleActivity "REDEEM" "m" "" 1 0 7 20,
       sampleActivity "REDEEM" "m2" "" 1 0 9 30]) =
      [⟨"m", "T", categoryFromSlug "sports-game", "Yes", 10, 1, 1, -1⟩] := by
    norm_num [group_trades, tradesOfActivities, tradeOfActivity, bucketsFor,
      addToBuckets, sortDesc, insertDesc, mkGroup, tradeKey, sampleActivity,
      maxByTime, buyFills, buySize, buyValue, sumPnl, trade_pnl, BPS,
      List.filterMap_cons, List.foldl_cons, hstr1, hstr2, hstr3, hstr4,
      show (("BUY":String) == "BUY") = true by rfl,
      show ("BUY":String) ≠ "SELL" by decide]
  have hrds : redeemsFor
      [sampleActivity "TRADE" "m" "BUY" 1 1 0 10,
       sampleActivity "REDEEM" "m" "" 1 0 7 20,
       sampleActivity "REDEEM" "m2" "" 1 0 9 30] =
      [("m", [sampleActivity "REDEEM" "m" "" 1 0 7 20]),
       ("m2", [sampleActivity "REDEEM" "m2" "" 1 0 9 30])] := by
    norm_num [redeemsFor, bucketsFor, addToBuckets, sampleActivity,
      List.foldl_cons, hstr1, hstr2, hstr3, hstr4,
      show ("m2":String) ≠ "m" by decide]
  have h := claim_C4_redemption_reconciliation
    [sampleActivity "TRADE" "m" "BUY" 1 1 0 10,
     sampleActivity "REDEEM" "m" "" 1 0 7 20,
     sampleActivity "REDEEM" "m2" "" 1 0 9 30]
  constructor
  · have hg : (⟨"m", "T", categoryFromSlug "sports-game", "Yes", 10, 1, 1, -1⟩ : TradeGroup) ∈
        group_trades (tradesOfActivities
          [sampleActivity "TRADE" "m" "BUY" 1 1 0 10,
           sampleActivity "REDEEM" "m" "" 1 0 7 20,
           sampleActivity "REDEEM" "m2" "" 1 0 9 30]) := by
      rw [hgeval]
      exact List.mem_singleton.mpr rfl
    have hlk : lookupRedeems "m" (redeemsFor
        [sampleActivity "TRADE" "m" "BUY" 1 1 0 10,
         sampleActivity "REDEEM" "m" "" 1 0 7 20,
         sampleActivity "REDEEM" "m2" "" 1 0 9 30]) =
        [sampleActivity "REDEEM" "m" "" 1 0 7 20] := by
      rw [hrds, lookupRedeems, if_pos rfl]
    obtain ⟨g2, hg2mem, hmkt, _, _, _, hpnl, _⟩ :=
      h.1 _ hg (sampleActivity "REDEEM" "m" "" 1 0 7 20) [] hlk
    exact ⟨g2, hg2mem, hmkt, hpnl⟩
  · have hmem2 : ("m2", [sampleActivity "REDEEM" "m2" "" 1 0 9 30]) ∈ redeemsFor
        [sampleActivity "TRADE" "m" "BUY" 1 1 0 10,
         sampleActivity "REDEEM" "m" "" 1 0 7 20,
         sampleActivity "REDEEM" "m2" "" 1 0 9 30] := by
      rw [hrds]
      simp
    have hnot2 : ("m2":String) ∉ (group_trades (tradesOfActivities
        [sampleActivity "TRADE" "m" "BUY" 1 1 0 10,
         sampleActivity "REDEEM" "m" "" 1 0 7 20,
         sampleActivity "REDEEM" "m2" "" 1 0 9 30])).map TradeGroup.market := by
      rw [hgeval]
      simp [show ("m2":String) ≠ "m" by decide]
    exact (h.2 "m2" [sampleActivity "REDEEM" "m2" "" 1 0 9 30] hmem2 hnot2).1

end Poise
